import Mathlib

/-! go-zfs `ioctl` wrappers: a shallow embedding

The development embeds `src/ioctl/wrappers.go`:

* the streaming adapter (`sendStream.Read`, `sendStream.peek`, `Send`);
* the thin call sites `Rename`, `GetWrittenProperty`, `Destroy`, `Snapshot`.

Go values are represented as follows.

* `error` is `Option GoError` (`none` is `nil`).
* `string` and `[]byte` are `List Byte`.
* `map[string]bool` is an association list without repeated keys.
* A function that can panic or block forever returns `Option`; `none` is
  the panic, respectively the blocked receive.
* A function that calls the transport returns, next to its Go result, the
  list of transport calls it issued, in order.
-/

set_option autoImplicit false

namespace GoZfs

/-! ## Basic Go values -/

/-- One octet. -/
abbrev Byte := Fin 256

/-- Go `string`, seen as its bytes. -/
abbrev GoString := List Byte

/-- Non-nil values of the Go `error` interface.  `EOF` is the sentinel
`io.EOF`, compared by identity in the source; `errorString` is the result of
`errors.New`; `errno` stands for an error produced by the kernel call. -/
inductive GoError where
  | EOF
  | errorString (msg : String)
  | errno (code : Nat)
  deriving DecidableEq, Repr

/-! ## The read end of the pipe -/

/-- Read end of the pipe created by `os.Pipe`, as the reader will see it: the
data still to be delivered, cut into the pieces in which successive reads
find it available, and the error reported once every byte has been
delivered: `io.EOF` when the write end has been closed, another error when
the read end itself has been closed. -/
structure Pipe where
  chunks : List (List Byte)
  ending : GoError
  deriving DecidableEq, Repr

/-- The pieces a reader can meet: a piece without a byte is never seen, the
read goes on to the first piece that holds data. -/
def Pipe.skipEmpty : List (List Byte) → List (List Byte)
  | [] => []
  | [] :: rest => Pipe.skipEmpty rest
  | (b :: c) :: rest => (b :: c) :: rest

/-- `(*os.File).Read` on the read end with a buffer of `k` bytes.  Returns the
bytes stored in `buf[:n]`, the error and the pipe afterwards.  A read into an
empty buffer returns `0, nil` at once, unless the read end has been closed,
which every read reports.  A read into a non-empty buffer delivers as much
of the next available piece as fits, at least one byte, and reports the
ending error when no byte is left. -/
def Pipe.Read (p : Pipe) (k : Nat) : List Byte × Option GoError × Pipe :=
  match Pipe.skipEmpty p.chunks with
  | [] =>
    if k = 0 ∧ p.ending = GoError.EOF then ([], none, p)
    else ([], some p.ending, p)
  | c :: rest =>
    if k = 0 then ([], none, p)
    else if k < c.length then (c.take k, none, { p with chunks := c.drop k :: rest })
    else (c, none, { p with chunks := rest })

/-! ## sendStream -/

/-- The `sendStream` struct.  `errorChan` is the one-slot channel: `none` is
the empty channel, `some res` the channel holding the worker's result `res`.
`r` is the read end of the pipe. -/
structure sendStream where
  peekBuf : List Byte
  errorChan : Option (Option GoError)
  lastError : Option GoError
  isEOF : Bool
  r : Pipe
  deriving DecidableEq, Repr

/-- The statements shared by `Read` and `peek` once the pipe has reported
`io.EOF`: receive the worker's result, replace `nil` by `io.EOF`, set `isEOF`.
`none` when the channel is empty (the receive blocks). -/
def sendStream.finish (s : sendStream) (data : List Byte) :
    Option (List Byte × Option GoError × sendStream) :=
  match s.errorChan with
  | none => none
  | some res =>
    let last : Option GoError := if res = none then some GoError.EOF else res
    some (data, last, { s with errorChan := none, lastError := last, isEOF := true })

/-- `func (s *sendStream) Read(buf []byte) (int, error)` with `len(buf) = k`.
Returns the bytes stored in `buf[:n]` (so `n` is their number), the error and
the stream afterwards. -/
def sendStream.Read (s : sendStream) (k : Nat) :
    Option (List Byte × Option GoError × sendStream) :=
  if s.isEOF then some ([], s.lastError, s)
  else if 0 < s.peekBuf.length then
    let n := min k s.peekBuf.length
    some (s.peekBuf.take n, none, { s with peekBuf := s.peekBuf.drop n })
  else
    match s.r.Read k with
    | (data, err, r') =>
      if err = some GoError.EOF then
        sendStream.finish { s with r := r' } data
      else some (data, err, { s with r := r' })

/-- `func (s *sendStream) peek(buf []byte) (int, error)` with `len(buf) = k`. -/
def sendStream.peek (s : sendStream) (k : Nat) :
    Option (List Byte × Option GoError × sendStream) :=
  if s.isEOF then some ([], s.lastError, s)
  else
    match s.r.Read k with
    | (data, err, r') =>
      let s1 : sendStream := { s with r := r', peekBuf := s.peekBuf ++ data }
      if err = some GoError.EOF then
        sendStream.finish s1 data
      else some (data, err, s1)

/-- Runs `Read` once for every buffer length of `ks`, in order, and stops
after the first call that returns an error.  Returns the concatenation of the
bytes returned by the calls made, the error of the last call made and the
stream afterwards. -/
def readLoop : sendStream → List Nat → Option (List Byte × Option GoError × sendStream)
  | s, [] => some ([], none, s)
  | s, k :: ks =>
    match s.Read k with
    | none => none
    | some (d, some e, s') => some (d, some e, s')
    | some (d, none, s') =>
      match readLoop s' ks with
      | none => none
      | some (d', e, s'') => some (d ++ d', e, s'')

/-- Runs `Read` once for every buffer length of `ks`, in order, whatever the
calls return.  Returns what each call returned and the stream afterwards. -/
def readSeq : sendStream → List Nat → Option (List (List Byte × Option GoError) × sendStream)
  | s, [] => some ([], s)
  | s, k :: ks =>
    match s.Read k with
    | none => none
    | some (d, e, s') =>
      match readSeq s' ks with
      | none => none
      | some (rs, s'') => some ((d, e) :: rs, s'')

/-! ## The command buffer and the transport -/

/-- Modelled from the spec: the declaration of `Cmd` is missing.  The capacity
of its `Value` field is 8191 bytes plus the terminator. -/
def valueCap : Nat := 8192

/-- Modelled from the spec: the declaration of `Cmd` is missing.  Only the
fields the wrappers touch are kept: the `Value` byte array and the 64-bit
`Cookie` and `Objset_type`. -/
structure Cmd where
  Value : List Byte
  Cookie : Nat
  Objset_type : Nat
  deriving DecidableEq

/-- The zero value `Cmd{}`. -/
def Cmd.zero : Cmd := { Value := List.replicate valueCap 0, Cookie := 0, Objset_type := 0 }

/-- Modelled from the spec: the declarations of the `ZFS_IOC_*` constants are
missing; they are an external enumeration. -/
inductive Opcode where
  | ZFS_IOC_POOL_CREATE
  | ZFS_IOC_POOL_DESTROY
  | ZFS_IOC_CREATE
  | ZFS_IOC_SNAPSHOT
  | ZFS_IOC_SPACE_WRITTEN
  | ZFS_IOC_RENAME
  | ZFS_IOC_DESTROY
  | ZFS_IOC_SEND_SPACE
  | ZFS_IOC_SEND_NEW
  | ZFS_IOC_POOL_GET_PROPS
  | ZFS_IOC_OBJSET_ZPLPROPS
  | ZFS_IOC_OBJSET_STATS
  deriving DecidableEq, Repr

/-- The `DatasetProps` struct. -/
structure DatasetProps where
  Name : GoString
  deriving DecidableEq

/-- The `SendOptions` struct.  `Fd` is an `int32`. -/
structure SendOptions where
  Fd : Int
  From : GoString
  LargeBlocks : Bool
  Embed : Bool
  Compress : Bool
  ResumeObject : Nat
  ResumeOffset : Nat
  deriving DecidableEq

/-- Go `map[string]bool`: the entries, no key twice. -/
abbrev SnapMap := List (GoString × Bool)

/-- The comma-ok lookup `_, ok := m[key]`: the entry's value, if present. -/
def SnapMap.get (m : SnapMap) (key : GoString) : Option Bool :=
  match m.find? (fun e => e.1 = key) with
  | none => none
  | some e => some e.2

/-- The assignment `m[key] = v`. -/
def SnapMap.put : SnapMap → GoString → Bool → SnapMap
  | [], key, v => [(key, v)]
  | e :: rest, key, v =>
    if e.1 = key then (key, v) :: rest else e :: SnapMap.put rest key v

/-- The `request` argument of `NvlistIoctl` at the call sites embedded here:
`nil`, the anonymous `snapReq` struct of `Snapshot` (a nil `Props` pointer is
`none`), or the `SendOptions` of `Send`. -/
inductive Request where
  | nil
  | snapReq (Snaps : SnapMap) (Props : Option DatasetProps)
  | sendOptions (options : SendOptions)
  deriving DecidableEq

/-- One call `NvlistIoctl(zfsHandle.Fd(), ioc, name, cmd, request, _, _)`. -/
structure IoctlCall where
  ioc : Opcode
  name : GoString
  cmd : Cmd
  request : Request
  deriving DecidableEq

/-- What one call of `NvlistIoctl` does: the command buffer as the call leaves
it, the pieces of data the kernel writes to the descriptor named in the
request before the call returns, and the error returned. -/
structure IoctlOutcome where
  cmd : Cmd
  written : List (List Byte)
  err : Option GoError

/-- The surroundings of the wrappers.  `NvlistIoctl` is not part of the
embedded file and is a parameter, as is the result of `os.Pipe`: an error, or
the descriptor number of the write end. -/
structure World where
  NvlistIoctl : IoctlCall → IoctlOutcome
  osPipe : Except GoError Nat

/-! ## The call sites -/

/-- The loop `for i := 0; i < len(src); i++ { value[i] = src[i] }` on a byte
array.  `none` is the index-out-of-range panic. -/
def copyLoop (value : List Byte) (src : GoString) : Option (List Byte) :=
  (List.range src.length).foldlM
    (fun v i => if i < v.length then some (v.set i (src.getD i 0)) else none) value

/-- `func Rename(oldName, newName string, recursive bool) error`. -/
def Rename (w : World) (oldName newName : GoString) (recursive : Bool) :
    Option (Option GoError × List IoctlCall) :=
  let cookieVal : Nat := if recursive then 1 else 0
  let cmd : Cmd := { Cmd.zero with Cookie := cookieVal }
  if newName.length > 8191 then
    some (some (GoError.errorString "newName is longer than 8191 bytes, this is unsupported"), [])
  else
    match copyLoop cmd.Value newName with
    | none => none
    | some value =>
      let call : IoctlCall :=
        { ioc := Opcode.ZFS_IOC_RENAME, name := oldName, cmd := { cmd with Value := value },
          request := Request.nil }
      some ((w.NvlistIoctl call).err, [call])

/-- `func GetWrittenProperty(dataset, snapshot string) (uint64, error)`. -/
def GetWrittenProperty (w : World) (dataset snapshot : GoString) :
    Option ((Nat × Option GoError) × List IoctlCall) :=
  let cmd : Cmd := Cmd.zero
  if snapshot.length > 8191 then
    some ((0, some (GoError.errorString "snapshot is longer than 8191 bytes, this is unsupported")), [])
  else
    match copyLoop cmd.Value snapshot with
    | none => none
    | some value =>
      let call : IoctlCall :=
        { ioc := Opcode.ZFS_IOC_SPACE_WRITTEN, name := dataset, cmd := { cmd with Value := value },
          request := Request.nil }
      let out := w.NvlistIoctl call
      if out.err ≠ none then some ((0, out.err), [call])
      else some ((out.cmd.Cookie, none), [call])

/-- `func Destroy(name string, t ObjectType, deferred bool) error`.  The
declaration of `ObjectType` is missing; `t` is its numeric value and
`uint64(t)` keeps the low 64 bits. -/
def Destroy (w : World) (name : GoString) (t : Nat) (_deferred : Bool) :
    Option GoError × List IoctlCall :=
  let cmd : Cmd := { Cmd.zero with Objset_type := t % 2 ^ 64 }
  let call : IoctlCall :=
    { ioc := Opcode.ZFS_IOC_DESTROY, name := name, cmd := cmd, request := Request.nil }
  ((w.NvlistIoctl call).err, [call])

/-- The `for _, name := range names` loop of `Snapshot`: the error of the
early return, or the map built. -/
def snapLoop : List GoString → SnapMap → Except GoError SnapMap
  | [], snaps => Except.ok snaps
  | name :: rest, snaps =>
    if (snaps.get name).isSome then
      Except.error (GoError.errorString "duplicate snapshot name")
    else snapLoop rest (snaps.put name true)

/-- `func Snapshot(names []string, pool string, props *DatasetProps) error`. -/
def Snapshot (w : World) (names : List GoString) (pool : GoString)
    (props : Option DatasetProps) : Option GoError × List IoctlCall :=
  match snapLoop names [] with
  | Except.error e => (some e, [])
  | Except.ok snaps =>
    let call : IoctlCall :=
      { ioc := Opcode.ZFS_IOC_SNAPSHOT, name := pool, cmd := Cmd.zero,
        request := Request.snapReq snaps props }
    ((w.NvlistIoctl call).err, [call])

/-- The conversion `int32(x)` of a descriptor number. -/
def toInt32 (x : Nat) : Int := ((x + 2 ^ 31) % 2 ^ 32 : Nat) - 2 ^ 31

/-- The call made by the goroutine of `Send`, with `options.Fd` set to the
descriptor `wfd` of the write end. -/
def sendCall (wfd : Nat) (name : GoString) (options : SendOptions) : IoctlCall :=
  { ioc := Opcode.ZFS_IOC_SEND_NEW, name := name, cmd := Cmd.zero,
    request := Request.sendOptions { options with Fd := toInt32 wfd } }

/-- `func Send(name string, options SendOptions) (io.ReadCloser, error)`.

The background goroutine runs `NvlistIoctl`, sends its result on `errorChan`
and then closes the write end, so the reader meets `io.EOF` only when the
result is already in the channel.  The embedding therefore starts the stream
with the data the call writes in the pipe and its result in the channel. -/
def Send (w : World) (name : GoString) (options : SendOptions) :
    Option ((Option sendStream × Option GoError) × List IoctlCall) :=
  match w.osPipe with
  | Except.error e => some ((none, some e), [])
  | Except.ok wfd =>
    let call := sendCall wfd name options
    let out := w.NvlistIoctl call
    let stream : sendStream :=
      { peekBuf := [], errorChan := some out.err, lastError := none, isEOF := false,
        r := { chunks := out.written, ending := GoError.EOF } }
    match stream.peek 1 with
    | none => none
    | some (_, err, stream') =>
      if err ≠ none then some ((none, err), [call])
      else some ((some stream', none), [call])

/-! ## Sample data -/

/-- A stream with one queued byte and three more bytes to come in two pieces,
whose worker has succeeded. -/
def sampleStream : sendStream :=
  { peekBuf := [1], errorChan := some none, lastError := none, isEOF := false,
    r := { chunks := [[2, 3], [4]], ending := GoError.EOF } }

/-- A stream with nothing queued whose pipe is at its end and whose worker
has failed with error number 2. -/
def drainedStream : sendStream :=
  { peekBuf := [], errorChan := some (some (GoError.errno 2)), lastError := none,
    isEOF := false, r := { chunks := [], ending := GoError.EOF } }

/-- Default send options. -/
def sampleOptions : SendOptions :=
  { Fd := 0, From := [], LargeBlocks := false, Embed := false, Compress := false,
    ResumeObject := 0, ResumeOffset := 0 }

/-- A kernel whose calls succeed, write nothing and leave the command buffer
as it was; the write end of the pipe is descriptor 4. -/
def quietWorld : World :=
  { NvlistIoctl := fun call => { cmd := call.cmd, written := [], err := none },
    osPipe := Except.ok 4 }

/-- A kernel whose calls fail with error number 2 and write nothing. -/
def failingWorld : World :=
  { NvlistIoctl := fun call => { cmd := call.cmd, written := [], err := some (GoError.errno 2) },
    osPipe := Except.ok 4 }

/-- A kernel whose calls succeed after writing the byte 7, the pipe showing
an empty piece first. -/
def haltingWorld : World :=
  { NvlistIoctl := fun call => { cmd := call.cmd, written := [[], [7]], err := none },
    osPipe := Except.ok 4 }

/-! ## Streaming adapter: reading -/

/-- Number of further `Read` calls with a non-empty buffer that a stream can
answer without an error: one per queued byte, and at most one per byte of a
piece of pipe data plus one per piece. -/
def sendStream.pending (s : sendStream) : Nat :=
  s.peekBuf.length + (s.r.chunks.map (fun c => c.length + 1)).sum

theorem Read_of_isEOF (s : sendStream) (k : Nat) (h : s.isEOF = true) :
    s.Read k = some ([], s.lastError, s) := by
  simp [sendStream.Read, h]

theorem readSeq_of_isEOF (s : sendStream) (h : s.isEOF = true) (ks : List Nat) :
    readSeq s ks = some (ks.map (fun _ => ([], s.lastError)), s) := by
  induction ks with
  | nil => rfl
  | cons k ks ih => simp [readSeq, Read_of_isEOF s k h, ih]

theorem Read_at_end (s : sendStream) (k : Nat) (res : Option GoError)
    (hterm : s.isEOF = false) (hpeek : s.peekBuf = [])
    (hpipe : (s.r.Read k).2.1 = some GoError.EOF) (hchan : s.errorChan = some res) :
    s.Read k = some ((s.r.Read k).1, (if res = none then some GoError.EOF else res),
      { s with r := (s.r.Read k).2.2, errorChan := none,
               lastError := (if res = none then some GoError.EOF else res), isEOF := true }) := by
  simp [sendStream.Read, hterm, hpeek, hpipe, sendStream.finish, hchan]

theorem skipEmpty_flatten (chunks : List (List Byte)) :
    (Pipe.skipEmpty chunks).flatten = chunks.flatten := by
  induction chunks with
  | nil => rfl
  | cons c rest ih =>
    cases c with
    | nil => simpa [Pipe.skipEmpty] using ih
    | cons b c => rfl

theorem skipEmpty_weight (chunks : List (List Byte)) :
    ((Pipe.skipEmpty chunks).map (fun c => c.length + 1)).sum ≤
      (chunks.map (fun c => c.length + 1)).sum := by
  induction chunks with
  | nil => simp [Pipe.skipEmpty]
  | cons c rest ih =>
    cases c with
    | nil =>
      simp only [Pipe.skipEmpty, List.map_cons, List.sum_cons, List.length_nil]
      omega
    | cons b c => simp [Pipe.skipEmpty]

theorem skipEmpty_head_ne_nil (chunks : List (List Byte)) (c : List Byte)
    (rest : List (List Byte)) (h : Pipe.skipEmpty chunks = c :: rest) : 0 < c.length := by
  induction chunks with
  | nil => simp [Pipe.skipEmpty] at h
  | cons c0 rest0 ih =>
    cases c0 with
    | nil => exact ih (by simpa [Pipe.skipEmpty] using h)
    | cons b c1 =>
      simp only [Pipe.skipEmpty, List.cons.injEq] at h
      rw [← h.1]
      simp

theorem Pipe_Read_pos (chunks : List (List Byte)) (e : GoError) (k : Nat) (hk : 0 < k) :
    (chunks.flatten = [] ∧
        Pipe.Read ⟨chunks, e⟩ k = ([], some e, ⟨chunks, e⟩)) ∨
      ∃ d chunks', Pipe.Read ⟨chunks, e⟩ k = (d, none, ⟨chunks', e⟩) ∧
        0 < d.length ∧ d.length ≤ k ∧ d ++ chunks'.flatten = chunks.flatten ∧
        (chunks'.map (fun c => c.length + 1)).sum <
          (chunks.map (fun c => c.length + 1)).sum := by
  have hk0 : ¬ k = 0 := Nat.pos_iff_ne_zero.mp hk
  have hfl := skipEmpty_flatten chunks
  have hwt := skipEmpty_weight chunks
  cases hsk : Pipe.skipEmpty chunks with
  | nil =>
    left
    rw [hsk] at hfl
    refine ⟨by simpa using hfl.symm, ?_⟩
    simp [Pipe.Read, hsk, hk0]
  | cons c rest =>
    right
    have hc := skipEmpty_head_ne_nil chunks c rest hsk
    rw [hsk] at hfl hwt
    simp only [List.map_cons, List.sum_cons] at hwt
    by_cases hkc : k < c.length
    · refine ⟨c.take k, c.drop k :: rest, by simp [Pipe.Read, hsk, hk0, hkc], ?_, ?_, ?_, ?_⟩
      · simp only [List.length_take]; omega
      · simp only [List.length_take]; omega
      · rw [← hfl]
        simp only [List.flatten_cons, ← List.append_assoc, List.take_append_drop]
      · simp only [List.map_cons, List.sum_cons, List.length_drop]
        omega
    · refine ⟨c, rest, by simp [Pipe.Read, hsk, hk0, hkc], hc, by omega, ?_, ?_⟩
      · rw [← hfl]; simp
      · omega

theorem readLoop_delivers (ks : List Nat) :
    ∀ s : sendStream, s.isEOF = false → s.r.ending = GoError.EOF → s.errorChan = some none →
      (∀ k ∈ ks, 0 < k) → s.pending < ks.length →
      ∃ s', readLoop s ks = some (s.peekBuf ++ s.r.chunks.flatten, some GoError.EOF, s') := by
  induction ks with
  | nil => intro s _ _ _ _ hlen; simp at hlen
  | cons k ks ih =>
    intro s hterm hend hchan hpos hlen
    have hk : 0 < k := hpos k (List.mem_cons_self _ _)
    have hpos' : ∀ k' ∈ ks, 0 < k' := fun k' hk' => hpos k' (List.mem_cons_of_mem _ hk')
    obtain ⟨p, chan, last, eof, ⟨chunks, ending⟩⟩ := s
    simp only at hterm hend hchan
    subst hterm hend hchan
    simp only [sendStream.pending, List.length_cons] at hlen
    cases p with
    | cons b p =>
      have hmin : min k (p.length + 1) = (min k (p.length + 1) - 1) + 1 := by omega
      obtain ⟨s', hs'⟩ := ih
        { peekBuf := (b :: p).drop (min k (p.length + 1)), errorChan := some none,
          lastError := last, isEOF := false, r := ⟨chunks, GoError.EOF⟩ }
        rfl rfl rfl hpos' (by
          simp only [sendStream.pending, List.length_drop, List.length_cons]
          simp only [List.length_cons] at hlen
          omega)
      refine ⟨s', ?_⟩
      simp only [readLoop, sendStream.Read, List.length_cons, Nat.zero_lt_succ, if_true,
        Bool.false_eq_true, if_false, hs']
      simp only [← List.append_assoc, List.take_append_drop]
    | nil =>
      simp only [List.length_nil, Nat.zero_add] at hlen
      rcases Pipe_Read_pos chunks GoError.EOF k hk with ⟨hfl, hrd⟩ | ⟨d, chunks', hrd, _, _, hfl, hwt⟩
      · refine ⟨{ peekBuf := [], errorChan := none, lastError := some GoError.EOF,
                  isEOF := true, r := ⟨chunks, GoError.EOF⟩ }, ?_⟩
        simp [readLoop, sendStream.Read, hrd, sendStream.finish, hfl]
      · obtain ⟨s', hs'⟩ := ih
          { peekBuf := [], errorChan := some none, lastError := last, isEOF := false,
            r := ⟨chunks', GoError.EOF⟩ }
          rfl rfl rfl hpos' (by
            simp only [sendStream.pending, List.length_nil]
            omega)
        refine ⟨s', ?_⟩
        simp [readLoop, sendStream.Read, hrd, hs', hfl]

theorem Send_eq (w : World) (name : GoString) (options : SendOptions) (wfd : Nat)
    (hpipe : w.osPipe = Except.ok wfd) :
    Send w name options =
      match sendStream.peek
          { peekBuf := [], errorChan := some (w.NvlistIoctl (sendCall wfd name options)).err,
            lastError := none, isEOF := false,
            r := { chunks := (w.NvlistIoctl (sendCall wfd name options)).written,
                   ending := GoError.EOF } } 1 with
      | none => none
      | some (_, err, stream') =>
        if err ≠ none then some ((none, err), [sendCall wfd name options])
        else some ((some stream', none), [sendCall wfd name options]) := by
  simp only [Send, hpipe]

/-! ## Claims about the streaming adapter -/

/-- C1: a stream that is not terminated, holds the queued bytes `p`, whose pipe
delivers the pieces `q` and then end-of-data, and whose worker succeeded,
hands out exactly `p` followed by the bytes of `q` over successive `Read`
calls with non-empty buffers, and the first error returned is `io.EOF`.  The
reads are those of any list `ks` of positive buffer lengths long enough to
reach the end. -/
theorem C1_stream_data_fidelity (s : sendStream) (p : List Byte) (q : List (List Byte))
    (ks : List Nat) (hterm : s.isEOF = false) (hp : s.peekBuf = p)
    (hq : s.r = { chunks := q, ending := GoError.EOF }) (hres : s.errorChan = some none)
    (hks : ∀ k ∈ ks, 0 < k) (hlen : s.pending < ks.length) :
    ∃ s', readLoop s ks = some (p ++ q.flatten, some GoError.EOF, s') := by
  obtain ⟨s', hs'⟩ := readLoop_delivers ks s hterm (by rw [hq]) hres hks hlen
  exact ⟨s', by rw [hs', hp, hq]⟩

theorem C1_stream_data_fidelity_witness :
    sampleStream.isEOF = false ∧ sampleStream.errorChan = some none ∧
    (∀ k ∈ [1, 5, 1, 2, 2, 3, 1], 0 < k) ∧ sampleStream.pending < [1, 5, 1, 2, 2, 3, 1].length ∧
    ∃ s', readLoop sampleStream [1, 5, 1, 2, 2, 3, 1] =
      some ([1] ++ [[2, 3], [4]].flatten, some GoError.EOF, s') :=
  ⟨rfl, rfl, by decide, by decide,
    C1_stream_data_fidelity sampleStream [1] [[2, 3], [4]] [1, 5, 1, 2, 2, 3, 1]
      rfl rfl rfl rfl (by decide) (by decide)⟩

/-- C4: on a stream that is not terminated and has nothing queued, a `Read`
whose pipe read reports end-of-data returns `io.EOF` when the worker's result
is nil and the worker's error `e` when the result is `e`; the stream is then
terminated and keeps that outcome in `lastError`. -/
theorem C4_terminal_outcome (s : sendStream) (k : Nat) (res : Option GoError)
    (hterm : s.isEOF = false) (hpeek : s.peekBuf = [])
    (hpipe : (s.r.Read k).2.1 = some GoError.EOF) (hchan : s.errorChan = some res) :
    ∃ d out s', s.Read k = some (d, out, s') ∧ s'.isEOF = true ∧ s'.lastError = out ∧
      (res = none → out = some GoError.EOF) ∧ (∀ e, res = some e → out = some e) := by
  refine ⟨_, _, _, Read_at_end s k res hterm hpeek hpipe hchan, rfl, rfl, ?_, ?_⟩
  · intro h; simp [h]
  · intro e h; simp [h]

theorem C4_terminal_outcome_witness :
    ∃ d out s', drainedStream.Read 8 = some (d, out, s') ∧ s'.isEOF = true ∧
      s'.lastError = out ∧ (some (GoError.errno 2) = none → out = some GoError.EOF) ∧
      (∀ e, some (GoError.errno 2) = some e → out = some e) :=
  C4_terminal_outcome drainedStream 8 (some (GoError.errno 2)) rfl rfl rfl rfl

/-- C5: once a `Read` has returned the terminal outcome `err` (the stream was
already terminated, or nothing was queued and the pipe reported end-of-data),
every later `Read`, whatever the buffer, returns no byte and `err` and leaves
the stream, its pipe and its result channel as they were; so does any
sequence `ks` of later reads. -/
theorem C5_terminal_idempotence (s : sendStream) (k : Nat) (d : List Byte)
    (err : Option GoError) (s' : sendStream)
    (hterminal : s.isEOF = true ∨ (s.peekBuf = [] ∧ (s.r.Read k).2.1 = some GoError.EOF))
    (hread : s.Read k = some (d, err, s')) (ks : List Nat) :
    (∀ k', s'.Read k' = some ([], err, s')) ∧
      readSeq s' ks = some (ks.map (fun _ => ([], err)), s') := by
  have key : s'.isEOF = true ∧ s'.lastError = err := by
    cases hE : s.isEOF with
    | true =>
      rw [Read_of_isEOF s k hE] at hread
      simp only [Option.some.injEq, Prod.mk.injEq] at hread
      obtain ⟨_, h2, h3⟩ := hread
      subst h3
      exact ⟨hE, h2⟩
    | false =>
      rcases hterminal with h | ⟨hpeek, hpipe⟩
      · rw [hE] at h; cases h
      · cases hC : s.errorChan with
        | none =>
          simp [sendStream.Read, hE, hpeek, hpipe, sendStream.finish, hC] at hread
        | some res =>
          rw [Read_at_end s k res hE hpeek hpipe hC] at hread
          simp only [Option.some.injEq, Prod.mk.injEq] at hread
          obtain ⟨_, h2, h3⟩ := hread
          subst h3
          exact ⟨rfl, h2⟩
  obtain ⟨h1, h2⟩ := key
  subst h2
  exact ⟨fun k' => Read_of_isEOF s' k' h1, readSeq_of_isEOF s' h1 ks⟩

theorem C5_terminal_idempotence_witness :
    (∀ k', sendStream.Read
        { drainedStream with errorChan := none, lastError := some (GoError.errno 2),
                             isEOF := true } k' =
      some ([], some (GoError.errno 2),
        { drainedStream with errorChan := none, lastError := some (GoError.errno 2),
                             isEOF := true })) ∧
    readSeq { drainedStream with errorChan := none, lastError := some (GoError.errno 2),
                                 isEOF := true } [0, 3, 7] =
      some ([0, 3, 7].map (fun _ => ([], some (GoError.errno 2))),
        { drainedStream with errorChan := none, lastError := some (GoError.errno 2),
                             isEOF := true }) :=
  C5_terminal_idempotence drainedStream 8 [] (some (GoError.errno 2)) _
    (Or.inr ⟨rfl, rfl⟩) rfl [0, 3, 7]

/-- C2: when the pipe was created and the background kernel call fails with
`e` without writing anything, `Send` returns a nil stream and the error `e`. -/
theorem C2_send_early_failure (w : World) (name : GoString) (options : SendOptions)
    (wfd : Nat) (e : GoError) (hpipe : w.osPipe = Except.ok wfd)
    (hwritten : (w.NvlistIoctl (sendCall wfd name options)).written = [])
    (herr : (w.NvlistIoctl (sendCall wfd name options)).err = some e) :
    Send w name options = some ((none, some e), [sendCall wfd name options]) := by
  rw [Send_eq w name options wfd hpipe, hwritten, herr]
  simp [sendStream.peek, Pipe.Read, Pipe.skipEmpty, sendStream.finish]

theorem C2_send_early_failure_witness :
    failingWorld.osPipe = Except.ok 4 ∧
    (failingWorld.NvlistIoctl (sendCall 4 [116] sampleOptions)).written = [] ∧
    (failingWorld.NvlistIoctl (sendCall 4 [116] sampleOptions)).err = some (GoError.errno 2) ∧
    Send failingWorld [116] sampleOptions =
      some ((none, some (GoError.errno 2)), [sendCall 4 [116] sampleOptions]) :=
  ⟨rfl, rfl, rfl, C2_send_early_failure failingWorld [116] sampleOptions 4 (GoError.errno 2)
    rfl rfl rfl⟩

/-- C3, as stated, fails for N = 0: a kernel call that writes nothing and
succeeds makes `Send` return a nil stream and the error `io.EOF`. -/
theorem C3_counterexample :
    quietWorld.osPipe = Except.ok 4 ∧
    (quietWorld.NvlistIoctl (sendCall 4 [116] sampleOptions)).written = [] ∧
    (quietWorld.NvlistIoctl (sendCall 4 [116] sampleOptions)).err = none ∧
    Send quietWorld [116] sampleOptions =
      some ((none, some GoError.EOF), [sendCall 4 [116] sampleOptions]) :=
  ⟨rfl, rfl, rfl, rfl⟩

/-- C3, amended: when the pipe was created and the background kernel call
writes N >= 1 bytes and succeeds, `Send` makes its one call, with the send
options carrying the descriptor of the write end, and returns a stream and a
nil error.  The one-byte peek obtains the first byte written, and the stream
returned is not terminated and has exactly that byte queued for replay. -/
theorem C3_send_success_yields_stream (w : World) (name : GoString) (options : SendOptions)
    (wfd : Nat) (call : IoctlCall)
    (hcall : call = { ioc := Opcode.ZFS_IOC_SEND_NEW, name := name, cmd := Cmd.zero,
                      request := Request.sendOptions { options with Fd := toInt32 wfd } })
    (hpipe : w.osPipe = Except.ok wfd)
    (hN : 1 ≤ (w.NvlistIoctl call).written.flatten.length)
    (herr : (w.NvlistIoctl call).err = none) :
    ∃ b stream, (w.NvlistIoctl call).written.flatten.head? = some b ∧
      (Pipe.Read ⟨(w.NvlistIoctl call).written, GoError.EOF⟩ 1).1 = [b] ∧
      Send w name options = some ((some stream, none), [call]) ∧
      stream.peekBuf = [b] ∧ stream.isEOF = false ∧ stream.lastError = none := by
  have hsc : sendCall wfd name options = call := by rw [hcall]; rfl
  rw [Send_eq w name options wfd hpipe, hsc, herr]
  rcases Pipe_Read_pos (w.NvlistIoctl call).written GoError.EOF 1 Nat.one_pos with
    ⟨hfl, _⟩ | ⟨d, chunks', hrd, hd0, hd1, hfl, _⟩
  · rw [hfl] at hN; simp at hN
  · cases d with
    | nil => simp at hd0
    | cons b d' =>
      have hd' : d' = [] := by
        simp only [List.length_cons] at hd1
        exact List.length_eq_zero.mp (by omega)
      subst hd'
      refine ⟨b, { peekBuf := [b], errorChan := some none, lastError := none, isEOF := false,
                   r := ⟨chunks', GoError.EOF⟩ }, ?_, ?_, ?_, rfl, rfl, rfl⟩
      · rw [← hfl]; rfl
      · rw [hrd]
      · simp [sendStream.peek, hrd]

theorem C3_send_success_yields_stream_witness :
    haltingWorld.osPipe = Except.ok 4 ∧
    1 ≤ (haltingWorld.NvlistIoctl (sendCall 4 [116] sampleOptions)).written.flatten.length ∧
    (haltingWorld.NvlistIoctl (sendCall 4 [116] sampleOptions)).err = none ∧
    ∃ b stream,
      (haltingWorld.NvlistIoctl (sendCall 4 [116] sampleOptions)).written.flatten.head? =
        some b ∧
      (Pipe.Read ⟨(haltingWorld.NvlistIoctl (sendCall 4 [116] sampleOptions)).written,
        GoError.EOF⟩ 1).1 = [b] ∧
      Send haltingWorld [116] sampleOptions =
        some ((some stream, none), [sendCall 4 [116] sampleOptions]) ∧
      stream.peekBuf = [b] ∧ stream.isEOF = false ∧ stream.lastError = none :=
  ⟨rfl, by decide, rfl,
    C3_send_success_yields_stream haltingWorld [116] sampleOptions 4
      (sendCall 4 [116] sampleOptions) rfl rfl (by decide) rfl⟩

/-! ## The copy loop -/

theorem copyLoop_upto (value : List Byte) (src : GoString) (n : Nat)
    (hs : n ≤ src.length) (hv : n ≤ value.length) :
    (List.range n).foldlM
        (fun v i => if i < v.length then some (v.set i (src.getD i 0)) else none) value =
      some (src.take n ++ value.drop n) := by
  induction n with
  | zero => simp
  | succ n ih =>
    have hs' : n < src.length := hs
    have hv' : n < value.length := hv
    rw [List.range_succ, List.foldlM_append, ih (Nat.le_of_lt hs') (Nat.le_of_lt hv')]
    have hlen : (List.take n src ++ List.drop n value).length = value.length := by
      simp only [List.length_append, List.length_take, List.length_drop]
      omega
    have htake : (List.take n src).length = n := by
      simp only [List.length_take]; omega
    simp only [Option.some_bind, List.foldlM_cons, List.foldlM_nil, hlen, hv', if_true,
      Option.bind_eq_bind]
    simp only [pure, Option.some.injEq]
    rw [List.set_append, htake, if_neg (Nat.lt_irrefl n), Nat.sub_self,
      List.drop_eq_getElem_cons hv', List.set_cons_zero, List.getD_eq_getElem src 0 hs']
    rw [List.take_succ, List.getElem?_eq_getElem hs']
    simp only [Option.toList, List.append_assoc, List.singleton_append]

theorem copyLoop_eq (value : List Byte) (src : GoString) (h : src.length ≤ value.length) :
    copyLoop value src = some (src ++ value.drop src.length) := by
  unfold copyLoop
  rw [copyLoop_upto value src src.length (Nat.le_refl _) h, List.take_length]

theorem Rename_eq (w : World) (oldName newName : GoString) (recursive : Bool)
    (h : newName.length ≤ 8191) :
    Rename w oldName newName recursive =
      some ((w.NvlistIoctl
          { ioc := Opcode.ZFS_IOC_RENAME, name := oldName,
            cmd := { Value := newName ++ List.replicate (valueCap - newName.length) 0,
                     Cookie := if recursive then 1 else 0, Objset_type := 0 },
            request := Request.nil }).err,
        [{ ioc := Opcode.ZFS_IOC_RENAME, name := oldName,
           cmd := { Value := newName ++ List.replicate (valueCap - newName.length) 0,
                    Cookie := if recursive then 1 else 0, Objset_type := 0 },
           request := Request.nil }]) := by
  have hcap : newName.length ≤ (List.replicate valueCap (0 : Byte)).length := by
    rw [List.length_replicate]; unfold valueCap; omega
  have hgt : ¬ newName.length > 8191 := by omega
  simp only [Rename, hgt, if_false, Cmd.zero, copyLoop_eq _ newName hcap, List.drop_replicate]

theorem GetWrittenProperty_eq (w : World) (dataset snapshot : GoString)
    (h : snapshot.length ≤ 8191) :
    ∃ call : IoctlCall,
      call = { ioc := Opcode.ZFS_IOC_SPACE_WRITTEN, name := dataset,
               cmd := { Value := snapshot ++ List.replicate (valueCap - snapshot.length) 0,
                        Cookie := 0, Objset_type := 0 },
               request := Request.nil } ∧
      GetWrittenProperty w dataset snapshot =
        some (if (w.NvlistIoctl call).err ≠ none then (0, (w.NvlistIoctl call).err)
              else ((w.NvlistIoctl call).cmd.Cookie, none), [call]) := by
  have hcap : snapshot.length ≤ (List.replicate valueCap (0 : Byte)).length := by
    rw [List.length_replicate]; unfold valueCap; omega
  have hgt : ¬ snapshot.length > 8191 := by omega
  refine ⟨_, rfl, ?_⟩
  simp only [GetWrittenProperty, hgt, if_false, Cmd.zero, copyLoop_eq _ snapshot hcap,
    List.drop_replicate]
  split <;> rfl

/-! ## Claims about `Rename`, `GetWrittenProperty` and `Destroy` -/

/-- C7: with a `newName` (for `GetWrittenProperty`, a `snapshot`) of exactly
8191 bytes, `Rename` and `GetWrittenProperty` pass their length check and make
their one transport call, whose result they return; with 8192 bytes or more
they return an error and make no call. -/
theorem C7_aux_name_length_boundary (w : World) (oldName dataset s : GoString)
    (recursive : Bool) :
    (s.length = 8191 →
      (∃ call, call.ioc = Opcode.ZFS_IOC_RENAME ∧ call.name = oldName ∧
        Rename w oldName s recursive = some ((w.NvlistIoctl call).err, [call])) ∧
      (∃ call, call.ioc = Opcode.ZFS_IOC_SPACE_WRITTEN ∧ call.name = dataset ∧
        GetWrittenProperty w dataset s =
          some (if (w.NvlistIoctl call).err ≠ none then (0, (w.NvlistIoctl call).err)
                else ((w.NvlistIoctl call).cmd.Cookie, none), [call]))) ∧
    (8192 ≤ s.length →
      (∃ e, Rename w oldName s recursive = some (some e, [])) ∧
      (∃ e, GetWrittenProperty w dataset s = some ((0, some e), []))) := by
  constructor
  · intro h
    constructor
    · exact ⟨_, rfl, rfl, Rename_eq w oldName s recursive (by omega)⟩
    · obtain ⟨call, hcall, hres⟩ := GetWrittenProperty_eq w dataset s (by omega)
      exact ⟨call, by rw [hcall], by rw [hcall], hres⟩
  · intro h
    have hgt : s.length > 8191 := by omega
    constructor
    · exact ⟨GoError.errorString "newName is longer than 8191 bytes, this is unsupported",
        by simp only [Rename, hgt, if_true]⟩
    · exact ⟨GoError.errorString "snapshot is longer than 8191 bytes, this is unsupported",
        by simp only [GetWrittenProperty, hgt, if_true]⟩

theorem C7_aux_name_length_boundary_witness :
    ((∃ call, call.ioc = Opcode.ZFS_IOC_RENAME ∧ call.name = [97] ∧
        Rename quietWorld [97] (List.replicate 8191 98) true =
          some ((quietWorld.NvlistIoctl call).err, [call])) ∧
      (∃ call, call.ioc = Opcode.ZFS_IOC_SPACE_WRITTEN ∧ call.name = [99] ∧
        GetWrittenProperty quietWorld [99] (List.replicate 8191 98) =
          some (if (quietWorld.NvlistIoctl call).err ≠ none
                then (0, (quietWorld.NvlistIoctl call).err)
                else ((quietWorld.NvlistIoctl call).cmd.Cookie, none), [call]))) ∧
    ((∃ e, Rename quietWorld [97] (List.replicate 8192 98) true = some (some e, [])) ∧
      (∃ e, GetWrittenProperty quietWorld [99] (List.replicate 8192 98) =
        some ((0, some e), []))) :=
  ⟨(C7_aux_name_length_boundary quietWorld [97] [99] (List.replicate 8191 98) true).1
      (List.length_replicate _ _),
   (C7_aux_name_length_boundary quietWorld [97] [99] (List.replicate 8192 98) true).2
      (Nat.le_of_eq (List.length_replicate _ _).symm)⟩

/-- C10: for a `newName` of length L <= 8191 the copy loop of `Rename` never
indexes outside the 8192-byte `Value` field, and the command handed to the
transport has `Value[i] = newName[i]` for i < L, `Value[i] = 0` for
L <= i < 8192, and `Cookie` 1 when `recursive` and 0 otherwise. -/
theorem C10_value_buffer_nul_terminated (w : World) (oldName newName : GoString)
    (recursive : Bool) (h : newName.length ≤ 8191) :
    (copyLoop Cmd.zero.Value newName).isSome = true ∧
    ∃ call, Rename w oldName newName recursive = some ((w.NvlistIoctl call).err, [call]) ∧
      call.cmd.Value.length = 8192 ∧
      (∀ i (hi : i < newName.length), call.cmd.Value[i]? = some newName[i]) ∧
      (∀ i, newName.length ≤ i → i < 8192 → call.cmd.Value[i]? = some 0) ∧
      call.cmd.Cookie = (if recursive then 1 else 0) := by
  have hcap : newName.length ≤ (List.replicate valueCap (0 : Byte)).length := by
    rw [List.length_replicate]; unfold valueCap; omega
  refine ⟨by simp only [Cmd.zero, copyLoop_eq _ newName hcap, Option.isSome_some], ?_⟩
  refine ⟨_, Rename_eq w oldName newName recursive h, ?_, ?_, ?_, rfl⟩
  · simp only [List.length_append, List.length_replicate, valueCap]
    omega
  · intro i hi
    simp only
    rw [List.getElem?_append_left hi, List.getElem?_eq_getElem hi]
  · intro i hL hi
    simp only
    rw [List.getElem?_append_right hL, List.getElem?_replicate]
    have : i - newName.length < valueCap - newName.length := by
      unfold valueCap; omega
    simp [this]

theorem C10_value_buffer_nul_terminated_witness :
    [114, 112].length ≤ 8191 ∧
    (copyLoop Cmd.zero.Value [114, 112]).isSome = true ∧
    ∃ call, Rename quietWorld [97] [114, 112] true =
        some ((quietWorld.NvlistIoctl call).err, [call]) ∧
      call.cmd.Value.length = 8192 ∧
      (∀ i (hi : i < [114, 112].length),
        call.cmd.Value[i]? = some (([114, 112] : GoString)[i])) ∧
      (∀ i, [114, 112].length ≤ i → i < 8192 → call.cmd.Value[i]? = some 0) ∧
      call.cmd.Cookie = (if true = true then 1 else 0) :=
  ⟨by decide, C10_value_buffer_nul_terminated quietWorld [97] [114, 112] true (by decide)⟩

/-- C8: `Destroy` hands the transport one command whose object-type field is
`t` and whose other fields are zero; the `deferred` argument is not conveyed:
the calls made for `deferred = true` and for `deferred = false` are the same. -/
theorem C8_destroy_drops_deferred (w : World) (name : GoString) (t : Nat) :
    Destroy w name t true = Destroy w name t false ∧
    ∀ deferred, (Destroy w name t deferred).2 =
      [{ ioc := Opcode.ZFS_IOC_DESTROY, name := name,
         cmd := { Value := List.replicate 8192 0, Cookie := 0, Objset_type := t % 2 ^ 64 },
         request := Request.nil }] :=
  ⟨rfl, fun _ => rfl⟩

/-! ## The name set of `Snapshot` -/

theorem SnapMap_get_isSome (m : SnapMap) (key : GoString) :
    (SnapMap.get m key).isSome = true ↔ key ∈ m.map Prod.fst := by
  induction m with
  | nil => simp [SnapMap.get]
  | cons e rest ih =>
    by_cases h : e.1 = key
    · simp [SnapMap.get, List.find?, h]
    · have h' : ¬ key = e.1 := fun h1 => h h1.symm
      simp only [SnapMap.get, List.find?, h, decide_False, List.map_cons, List.mem_cons, h',
        false_or] at ih ⊢
      exact ih

theorem SnapMap_put_absent (m : SnapMap) (key : GoString) (v : Bool)
    (h : key ∉ m.map Prod.fst) : SnapMap.put m key v = m ++ [(key, v)] := by
  induction m with
  | nil => rfl
  | cons e rest ih =>
    simp only [List.map_cons, List.mem_cons, not_or] at h
    have h' : ¬ e.1 = key := fun h1 => h.1 h1.symm
    simp only [SnapMap.put, h', if_false, ih h.2, List.cons_append]

theorem SnapMap_get_of_mem (names : List GoString) (key : GoString) (h : key ∈ names) :
    SnapMap.get (names.map (fun n => (n, true))) key = some true := by
  induction names with
  | nil => simp at h
  | cons n rest ih =>
    by_cases hn : n = key
    · simp [SnapMap.get, List.find?, hn]
    · have hmem : key ∈ rest := by
        rcases List.mem_cons.mp h with h1 | h1
        · exact absurd h1.symm hn
        · exact h1
      have := ih hmem
      simp only [SnapMap.get, List.map_cons, List.find?, hn, decide_False] at this ⊢
      exact this

theorem snapLoop_ok (names : List GoString) :
    ∀ m : SnapMap, names.Nodup → (∀ n ∈ names, n ∉ m.map Prod.fst) →
      snapLoop names m = Except.ok (m ++ names.map (fun n => (n, true))) := by
  induction names with
  | nil => intro m _ _; simp [snapLoop]
  | cons n rest ih =>
    intro m hnd hdis
    have hn : n ∉ m.map Prod.fst := hdis n (List.mem_cons_self _ _)
    have hget : ¬ (SnapMap.get m n).isSome = true := fun h => hn ((SnapMap_get_isSome m n).mp h)
    rw [List.nodup_cons] at hnd
    simp only [snapLoop, hget, if_false, SnapMap_put_absent m n true hn]
    rw [ih (m ++ [(n, true)]) hnd.2]
    · simp
    · intro k hk
      simp only [List.map_append, List.map_cons, List.map_nil, List.mem_append,
        List.mem_singleton, not_or]
      refine ⟨hdis k (List.mem_cons_of_mem _ hk), ?_⟩
      intro hkn
      exact hnd.1 (hkn ▸ hk)

theorem snapLoop_dup (names : List GoString) :
    ∀ m : SnapMap, ¬ (names.Nodup ∧ ∀ n ∈ names, n ∉ m.map Prod.fst) →
      snapLoop names m = Except.error (GoError.errorString "duplicate snapshot name") := by
  induction names with
  | nil => intro m h; simp at h
  | cons n rest ih =>
    intro m h
    by_cases hn : n ∈ m.map Prod.fst
    · have hget : (SnapMap.get m n).isSome = true := (SnapMap_get_isSome m n).mpr hn
      simp only [snapLoop, hget, if_true]
    · have hget : ¬ (SnapMap.get m n).isSome = true :=
        fun h1 => hn ((SnapMap_get_isSome m n).mp h1)
      simp only [snapLoop, hget, if_false, SnapMap_put_absent m n true hn]
      apply ih
      intro ⟨hnd, hdis⟩
      apply h
      refine ⟨List.nodup_cons.mpr ⟨?_, hnd⟩, ?_⟩
      · intro hmem
        exact hdis n hmem (by simp)
      · intro k hk
        rcases List.mem_cons.mp hk with h1 | h1
        · rw [h1]; exact hn
        · intro hkm
          exact hdis k h1 (by simp [List.mem_map] at hkm ⊢; exact Or.inl hkm)

/-- C9: `Snapshot` returns the error "duplicate snapshot name" and makes no
transport call exactly when some name occurs more than once in `names`;
otherwise it makes one snapshot call on `pool` whose request is the `snapReq`
with the given `props` and a `snaps` map that has exactly the given names as
keys, each mapped to true, and as many entries as there are names. -/
theorem C9_snapshot_name_set (w : World) (names : List GoString) (pool : GoString)
    (props : Option DatasetProps) :
    (Snapshot w names pool props =
        (some (GoError.errorString "duplicate snapshot name"), []) ↔
      ∃ n, List.Duplicate n names) ∧
    ((¬ ∃ n, List.Duplicate n names) → ∃ (call : IoctlCall) (snaps : SnapMap),
      Snapshot w names pool props = ((w.NvlistIoctl call).err, [call]) ∧
      call.ioc = Opcode.ZFS_IOC_SNAPSHOT ∧ call.name = pool ∧ call.cmd = Cmd.zero ∧
      call.request = Request.snapReq snaps props ∧
      (∀ key, key ∈ snaps.map Prod.fst ↔ key ∈ names) ∧
      (∀ key ∈ names, SnapMap.get snaps key = some true) ∧
      (snaps.map Prod.fst).Nodup ∧
      snaps.length = names.length) := by
  have hcount : (¬ ∃ n, List.Duplicate n names) ↔ names.Nodup := by
    rw [List.exists_duplicate_iff_not_nodup, not_not]
  have hok : names.Nodup → ∃ call : IoctlCall,
      Snapshot w names pool props = ((w.NvlistIoctl call).err, [call]) ∧
      call.ioc = Opcode.ZFS_IOC_SNAPSHOT ∧ call.name = pool ∧ call.cmd = Cmd.zero ∧
      call.request = Request.snapReq (names.map (fun n => (n, true))) props := by
    intro hnd
    have := snapLoop_ok names [] hnd (by simp)
    simp only [List.nil_append] at this
    exact ⟨⟨Opcode.ZFS_IOC_SNAPSHOT, pool, Cmd.zero,
      Request.snapReq (names.map (fun n => (n, true))) props⟩,
      by simp only [Snapshot, this], rfl, rfl, rfl, rfl⟩
  constructor
  · constructor
    · intro hres
      by_contra hno
      obtain ⟨call, hcall, _⟩ := hok (hcount.mp hno)
      rw [hcall] at hres
      simp at hres
    · intro hdup
      have hnd : ¬ names.Nodup := fun h => (hcount.mpr h) hdup
      have := snapLoop_dup names [] (fun h => hnd h.1)
      simp only [Snapshot, this]
  · intro hno
    have hnd := hcount.mp hno
    obtain ⟨call, hcall, h1, h2, h3, h4⟩ := hok hnd
    refine ⟨call, names.map (fun n => (n, true)), hcall, h1, h2, h3, h4, ?_, ?_, ?_, ?_⟩
    · intro key; simp [List.map_map, Function.comp_def]
    · intro key hkey; exact SnapMap_get_of_mem names key hkey
    · simpa [List.map_map, Function.comp_def] using hnd
    · simp

theorem C9_snapshot_name_set_witness :
    (Snapshot quietWorld [[97], [98], [97]] [112] none =
        (some (GoError.errorString "duplicate snapshot name"), []) ↔
      ∃ n, List.Duplicate n ([[97], [98], [97]] : List GoString)) ∧
    ∃ (call : IoctlCall) (snaps : SnapMap),
      Snapshot quietWorld [[97], [98]] [112] none =
        ((quietWorld.NvlistIoctl call).err, [call]) ∧
      call.ioc = Opcode.ZFS_IOC_SNAPSHOT ∧ call.name = [112] ∧ call.cmd = Cmd.zero ∧
      call.request = Request.snapReq snaps none ∧
      (∀ key, key ∈ snaps.map Prod.fst ↔ key ∈ ([[97], [98]] : List GoString)) ∧
      (∀ key ∈ ([[97], [98]] : List GoString), SnapMap.get snaps key = some true) ∧
      (snaps.map Prod.fst).Nodup ∧
      snaps.length = ([[97], [98]] : List GoString).length :=
  ⟨(C9_snapshot_name_set quietWorld [[97], [98], [97]] [112] none).1,
   (C9_snapshot_name_set quietWorld [[97], [98]] [112] none).2
     (by
       rw [List.exists_duplicate_iff_not_nodup, not_not]
       decide)⟩

end GoZfs
